import Mathlib

/-!
Verification of the video-thumbnail extraction pipeline of `kiorg`
(`src/ui/preview/video.rs`), as a shallow embedding in Lean 4.

Modelling conventions:
* `f64` arithmetic is modelled over `ℚ` (exact rational arithmetic, no
  rounding).  Where IEEE-754 special values matter (the NaN / infinity
  behaviour of `calculate_frame_quality` on degenerate frames), a separate
  model `EF` (extended float: rational ∪ {+∞, -∞, NaN}) is used, with the
  NaN-propagation, comparison and `f64::min` semantics of Rust.
* `u32`/`usize` values are `Nat`.  The interior loops of the sharpness pass
  use wrapping `u32` subtraction for their bounds (`1..(height-1)`), which
  is modelled by `u32sub1`.
* Out-of-range `Vec` indexing is modelled by `List.getD _ _ 0`; the claims
  proved here only evaluate it at in-range indices.
* The ffmpeg container/decoder is an external collaborator; it is modelled
  by an environment (`SamplerEnv` / `ExtractEnv`) that answers seeks with
  the packet list the demuxer would yield, each packet carrying the
  success/failure of `send_packet` / `receive_frame` / `scaler.run` and the
  decoded bytes.  The `HashMap<String,String>` metadata is modelled as a
  function from the fixed metadata keys to optional (structured) values.
-/

/-! ## Quality scorer (`calculate_frame_quality`), rational model -/

/-- BT.709 luminance of one RGB pixel:
`0.2126 * r + 0.7152 * g + 0.0722 * b`. -/
def lum (p : Nat × Nat × Nat) : ℚ :=
  0.2126 * (p.1 : ℚ) + 0.7152 * (p.2.1 : ℚ) + 0.0722 * (p.2.2 : ℚ)

/-- Mean luminance `total_brightness / pixel_count` with
`pixel_count = width * height`. -/
def average_brightness_of (rgb_data : List (Nat × Nat × Nat)) (width height : Nat) : ℚ :=
  ((rgb_data.map lum).sum) / ((width * height : Nat) : ℚ)

/-- The brightness-score `if` chain of `calculate_frame_quality`. -/
def brightness_score_of (M : ℚ) : ℚ :=
  if M < 22 then 0
  else if M < 56 then (M - 22) / (56 - 22)
  else if M ≤ 171 then 1
  else if M ≤ 194 then 1 - (M - 171) / (194 - 171)
  else 0

/-- The brightness score exactly as the five clauses of the spec state it. -/
def brightness_spec (M : ℚ) : ℚ :=
  if M < 22 then 0
  else if 22 ≤ M ∧ M < 56 then (M - 22) / 34
  else if 56 ≤ M ∧ M ≤ 171 then 1
  else if 171 < M ∧ M ≤ 194 then 1 - (M - 171) / 23
  else 0

/-- Variance score: population variance of luminance around the mean,
divided by `5000.0`, clamped at `1.0`. -/
def variance_score_of (rgb_data : List (Nat × Nat × Nat)) (width height : Nat) : ℚ :=
  let average := average_brightness_of rgb_data width height
  let variance := ((rgb_data.map lum).map (fun v => (v - average) ^ 2)).sum /
    ((width * height : Nat) : ℚ)
  min (variance / 5000) 1

/-- Wrapping `u32` decrement: the value of `n - 1` for `n : u32` in a release
build (`0 - 1` wraps to `u32::MAX`). -/
def u32sub1 (n : Nat) : Nat :=
  if n = 0 then 2 ^ 32 - 1 else n - 1

/-- Discrete Laplacian `-top - bottom - left - right + 4*center` read from the
flat luminance buffer at `(x, y)`. -/
def laplacian_at (vals : List ℚ) (width x y : Nat) : ℚ :=
  -(vals.getD ((y - 1) * width + x) 0) - vals.getD ((y + 1) * width + x) 0 -
    vals.getD (y * width + x - 1) 0 - vals.getD (y * width + x + 1) 0 +
    4 * vals.getD (y * width + x) 0

/-- The guarded Laplacian contributions of the interior double loop
`for y in 1..(height-1) { for x in 1..(width-1) { if center_idx < len … } }`,
in loop order. -/
def lap_contribs (vals : List ℚ) (width height : Nat) : List ℚ :=
  (List.range' 1 (u32sub1 height - 1)).flatMap fun y =>
    (List.range' 1 (u32sub1 width - 1)).filterMap fun x =>
      if y * width + x < vals.length then some (laplacian_at vals width x y) else none

/-- Sharpness score: Laplacian variance over the interior pixels, divided by
`2000.0`, clamped at `1.0`; `0.0` when there are no interior contributions. -/
def sharpness_score_of (rgb_data : List (Nat × Nat × Nat)) (width height : Nat) : ℚ :=
  let contribs := lap_contribs (rgb_data.map lum) width height
  let laplacian_variance :=
    if 0 < contribs.length then
      ((contribs.map fun v => v * v).sum) / (contribs.length : ℚ)
    else 0
  min (laplacian_variance / 2000) 1

/-- `calculate_frame_quality`: weighted sum of the three sub-scores, weights
`0.33` each, in the multiplication order of the source. -/
def calculate_frame_quality (rgb_data : List (Nat × Nat × Nat)) (width height : Nat) : ℚ :=
  brightness_score_of (average_brightness_of rgb_data width height) * 0.33 +
    variance_score_of rgb_data width height * 0.33 +
    sharpness_score_of rgb_data width height * 0.33

/-- A 3x3 black/white checkerboard frame (white corners and center). -/
def checker3 : List (Nat × Nat × Nat) :=
  [(255, 255, 255), (0, 0, 0), (255, 255, 255),
   (0, 0, 0), (255, 255, 255), (0, 0, 0),
   (255, 255, 255), (0, 0, 0), (255, 255, 255)]

/-! ## Selector (`max_by` over `enumerate`d scores) -/

/-- `f64::partial_cmp` on two non-NaN values (total on `ℚ`). -/
def fcmp (a b : ℚ) : Ordering :=
  if a < b then .lt else if b < a then .gt else .eq

/-- Rust `Iterator::max_by`: a `reduce` with `cmp::max_by`, which keeps the
SECOND argument when the comparison is `Less` or `Equal` (so the last of
several equal maxima wins). -/
def rust_max_by (l : List (Nat × ℚ)) : Option (Nat × ℚ) :=
  match l with
  | [] => none
  | x :: xs =>
    some (xs.foldl (fun acc y => match fcmp acc.2 y.2 with | .gt => acc | _ => y) x)

/-- `best_frame_index`: index of the `max_by` winner over the enumerated
score list, `0` for an empty list (`unwrap_or(0)`). -/
def best_frame_index (scores : List ℚ) : Nat :=
  ((rust_max_by (List.enumFrom 0 scores)).map Prod.fst).getD 0

/-! ## Aspect-ratio corrected output geometry -/

/-- Output geometry of `extract_video_thumbnail`: when a pixel aspect ratio is
present (`par.0 != 0 && par.1 != 0`) and not `1:1`, the display width is
`(width as f64 * par.0 as f64 / par.1 as f64) as u32` (here: the rational
quotient, truncated); the height is unchanged. -/
def output_dims (width height parN parD : Nat) : Nat × Nat :=
  if parN ≠ 0 ∧ parD ≠ 0 ∧ ¬(parN = 1 ∧ parD = 1) then
    (⌊(width : ℚ) * (parN : ℚ) / (parD : ℚ)⌋₊, height)
  else
    (width, height)

/-! ## Pixel-copy loop (stride normalisation) -/

/-- The RGB copy loop: for each `(y, x)` in row-major order, copy 3 bytes from
`y * linesize + x * 3` when that read fits in the source buffer. -/
def extract_pixels (data : List Nat) (linesize width height : Nat) : List Nat :=
  (List.range height).flatMap fun y =>
    (List.range width).flatMap fun x =>
      let src_offset := y * linesize + x * 3
      if src_offset + 2 < data.length then
        [data.getD src_offset 0, data.getD (src_offset + 1) 0, data.getD (src_offset + 2) 0]
      else []

/-- `chunks_exact(3)` over the flat byte list (the trailing remainder of fewer
than 3 bytes is dropped). -/
def chunk3 : List Nat → List (Nat × Nat × Nat)
  | r :: g :: b :: rest => (r, g, b) :: chunk3 rest
  | _ => []

/-! ## Placeholder generator -/

/-- One pixel of the placeholder: dark-gray background, 2-pixel border,
triangular play glyph, with the glyph test written exactly as in the source. -/
def placeholder_pixel (x y : Nat) : Nat × Nat × Nat :=
  let base : Nat × Nat × Nat :=
    if x < 2 ∨ 320 - 2 ≤ x ∨ y < 2 ∨ 240 - 2 ≤ y then (80, 80, 80) else (40, 40, 40)
  let rel_x : ℤ := (x : ℤ) - (320 / 2 : Nat)
  let rel_y : ℤ := (y : ℤ) - (240 / 2 : Nat)
  if -15 ≤ rel_x ∧ rel_x ≤ 15 ∧ |rel_y| ≤ 15 then
    let max_y : ℤ := if rel_x ≤ 0 then 15 else 15 - (rel_x * 15) / 15
    if |rel_y| ≤ max_y then (220, 220, 220) else base
  else base

/-- The placeholder glyph test as the spec words it:
`|rel_x| ≤ 15 ∧ |rel_y| ≤ max_y(rel_x)`, `max_y` tapering linearly from 15 at
`rel_x ≤ 0` to 0 at `rel_x = 15`. -/
def placeholder_spec_pixel (x y : Nat) : Nat × Nat × Nat :=
  let rel_x : ℤ := (x : ℤ) - 160
  let rel_y : ℤ := (y : ℤ) - 120
  let max_y : ℤ := if rel_x ≤ 0 then 15 else 15 - rel_x
  if |rel_x| ≤ 15 ∧ |rel_y| ≤ max_y then (220, 220, 220)
  else if x < 2 ∨ 318 ≤ x ∨ y < 2 ∨ 238 ≤ y then (80, 80, 80)
  else (40, 40, 40)

/-- `generate_placeholder_thumbnail`: the 320x240 RGB byte buffer (row-major,
3 bytes per pixel) plus the path-derived texture id.  The pixel data does not
depend on `path`. -/
def generate_placeholder_thumbnail (path : String) : List Nat × String :=
  let rgb_data :=
    (List.range 240).flatMap fun y =>
      (List.range 320).flatMap fun x =>
        let p := placeholder_pixel x y
        [p.1, p.2.1, p.2.2]
  (rgb_data, "video_placeholder_" ++ path)

/-! ## Frame sampler and decoder adapter environment -/

/-- One demuxed packet as the decode loop sees it: whether it belongs to the
selected video stream, the outcomes of `send_packet` / `receive_frame` /
`scaler.run` on it, and the scaled frame's raw buffer and stride. -/
structure Packet where
  isVideo : Bool
  sendOk : Bool
  recvOk : Bool
  scaleOk : Bool
  data : List Nat
  linesize : Nat

/-- The container adapter: a seek to a normalized position either fails or
yields the packet sequence the demuxer will produce from there. -/
structure SamplerEnv where
  seek : ℚ → Option (List Packet)

/-- The constant `max_packets`. -/
def max_packets : Nat := 20

/-- The per-position decode loop, carrying `packets_processed`.  Returns the
first successfully decoded+scaled frame's buffer (if any) together with the
number of packets actually fed to `send_packet`. -/
def decode_run : List Packet → Nat → Option (List Nat × Nat) × Nat
  | [], _ => (none, 0)
  | p :: rest, processed =>
    if p.isVideo = false then decode_run rest processed
    else if max_packets < processed + 1 then (none, 0)
    else
      let step := decode_run rest (processed + 1)
      if p.sendOk = false then (step.1, step.2 + 1)
      else if p.recvOk then
        if p.scaleOk then (some (p.data, p.linesize), 1)
        else (step.1, step.2 + 1)
      else (step.1, step.2 + 1)

/-- The fixed normalized sample positions `[0.0, 0.25, 0.5, 0.75]`. -/
def seek_positions : List ℚ := [0, 0.25, 0.5, 0.75]

/-- The sampling loop: for each position, seek (skip the position on failure),
then run the decode loop (skip on no frame).  Returns the trace of positions
attempted and the collected raw frame buffers, in order. -/
def sample_loop (senv : SamplerEnv) : List ℚ → List ℚ × List (List Nat × Nat)
  | [] => ([], [])
  | r :: rest =>
    let next := sample_loop senv rest
    match senv.seek r with
    | none => (r :: next.1, next.2)
    | some ps =>
      match (decode_run ps 0).1 with
      | none => (r :: next.1, next.2)
      | some payload => (r :: next.1, payload :: next.2)

/-! ## Metadata map and the full extraction pipeline -/

/-- The metadata keys `extract_video_thumbnail` inserts. -/
inductive MKey where
  | dimensions
  | displayDimensions
  | pixelAspectRatio
  | duration
deriving DecidableEq

/-- Structured metadata values (stand-ins for the formatted strings). -/
inductive MVal where
  | dims (w h : Nat)
  | ratio (n d : Nat)
  | durHMS (h m s : Nat)
  | durMS (m s : Nat)
deriving DecidableEq

/-- The caller's mutable `HashMap` restricted to the keys this core touches. -/
def Metadata : Type := MKey → Option MVal

/-- `HashMap::insert` (replaces any existing value). -/
def minsert (k : MKey) (v : MVal) (m : Metadata) : Metadata :=
  fun k' => if k' = k then some v else m k'

/-- The empty metadata map. -/
def emptyMeta : Metadata := fun _ => none

/-- Stream geometry and timing as reported by the opened decoder/stream. -/
structure StreamInfo where
  width : Nat
  height : Nat
  parN : Nat
  parD : Nat
  duration : Int
  tbN : Int
  tbD : Int

/-- `duration_seconds = duration * time_base.0 / time_base.1`. -/
def duration_seconds_of (info : StreamInfo) : ℚ :=
  (info.duration : ℚ) * (info.tbN : ℚ) / (info.tbD : ℚ)

/-- The metadata insertions of the geometry/duration stage, in source order:
`Dimensions`, then (when a non-1:1 PAR is present) `Display Dimensions` and
`Pixel Aspect Ratio`, then `Duration` (H:MM:SS when hours > 0, else M:SS,
from the floor-truncated total seconds). -/
def insert_stream_metadata (info : StreamInfo) (m : Metadata) : Metadata :=
  let od := output_dims info.width info.height info.parN info.parD
  let m1 := minsert .dimensions (.dims info.width info.height) m
  let m2 :=
    if info.parN ≠ 0 ∧ info.parD ≠ 0 ∧ ¬(info.parN = 1 ∧ info.parD = 1) then
      minsert .pixelAspectRatio (.ratio info.parN info.parD)
        (minsert .displayDimensions (.dims od.1 od.2) m1)
    else m1
  let total_seconds := (⌊duration_seconds_of info⌋).toNat
  let hours := total_seconds / 3600
  let minutes := total_seconds % 3600 / 60
  let seconds := total_seconds % 60
  minsert .duration
    (if 0 < hours then .durHMS hours minutes seconds else .durMS minutes seconds) m2

/-- Everything the environment decides for one `extract_video_thumbnail`
call: the outcomes of the fallible set-up steps, the stream parameters, and
the sampler's view of the demuxer. -/
structure ExtractEnv where
  initOk : Bool
  openOk : Bool
  hasVideo : Bool
  decoderOk : Bool
  scalerOk : Bool
  info : StreamInfo
  senv : SamplerEnv

/-- `extract_video_thumbnail`: fallible set-up, metadata insertion, the
4-position sampling loop with per-frame stride-normalised pixel extraction and
quality scoring, and best-frame selection.  Returns the metadata map as the
caller sees it afterwards (`&mut HashMap`) and either the chosen frame
`(width, height, rgb bytes)` or the error. -/
def extract_video_thumbnail (env : ExtractEnv) (m : Metadata) :
    Metadata × Except String (Nat × Nat × List Nat) :=
  if env.initOk = false then (m, .error "Failed to initialize ffmpeg")
  else if env.openOk = false then (m, .error "Failed to open input")
  else if env.hasVideo = false then (m, .error "No video stream found")
  else if env.decoderOk = false then (m, .error "Failed to create video decoder")
  else
    let od := output_dims env.info.width env.info.height env.info.parN env.info.parD
    let m' := insert_stream_metadata env.info m
    if env.scalerOk = false then (m', .error "Failed to create scaler")
    else
      let payloads := (sample_loop env.senv seek_positions).2
      let frames := payloads.map fun p => (od.1, od.2, extract_pixels p.1 p.2 od.1 od.2)
      let frame_scores := frames.map fun f => calculate_frame_quality (chunk3 f.2.2) f.1 f.2.1
      if frames = [] then (m', .error "No frames could be extracted")
      else (m', .ok (frames.getD (best_frame_index frame_scores) (0, 0, [])))

/-- A fully healthy environment in which every seek fails, so that every
sample point is skipped and the candidate set ends up empty. -/
def allSeeksFailEnv : ExtractEnv where
  initOk := true
  openOk := true
  hasVideo := true
  decoderOk := true
  scalerOk := true
  info := { width := 640, height := 480, parN := 1, parD := 1,
            duration := 10, tbN := 1, tbD := 1 }
  senv := ⟨fun _ => none⟩

/-- The same environment with a failing ffmpeg initialisation. -/
def failInitEnv : ExtractEnv := { allSeeksFailEnv with initOk := false }

/-! ## Extended-float model (`f64` with NaN and infinities, exact magnitudes) -/

/-- `f64` values as this pipeline can produce them: finite values (modelled
exactly over `ℚ`), the two infinities, and NaN.  Signed zero is identified
with zero (the pipeline never distinguishes them). -/
inductive EF where
  | num (q : ℚ)
  | pinf
  | ninf
  | nan
deriving DecidableEq

namespace EF

/-- NaN test. -/
def isNan : EF → Bool
  | nan => true
  | _ => false

/-- IEEE negation. -/
def neg : EF → EF
  | num q => num (-q)
  | pinf => ninf
  | ninf => pinf
  | nan => nan

/-- IEEE addition (NaN-propagating; `+∞ + -∞ = NaN`). -/
def add : EF → EF → EF
  | nan, _ => nan
  | _, nan => nan
  | num a, num b => num (a + b)
  | num _, pinf => pinf
  | pinf, num _ => pinf
  | num _, ninf => ninf
  | ninf, num _ => ninf
  | pinf, pinf => pinf
  | ninf, ninf => ninf
  | pinf, ninf => nan
  | ninf, pinf => nan

/-- IEEE subtraction. -/
def sub (a b : EF) : EF := add a (neg b)

/-- IEEE multiplication (`0 * ±∞ = NaN`). -/
def mul : EF → EF → EF
  | nan, _ => nan
  | _, nan => nan
  | num a, num b => num (a * b)
  | num a, pinf => if a = 0 then nan else if 0 < a then pinf else ninf
  | pinf, num a => if a = 0 then nan else if 0 < a then pinf else ninf
  | num a, ninf => if a = 0 then nan else if 0 < a then ninf else pinf
  | ninf, num a => if a = 0 then nan else if 0 < a then ninf else pinf
  | pinf, pinf => pinf
  | ninf, ninf => pinf
  | pinf, ninf => ninf
  | ninf, pinf => ninf

/-- IEEE division (`0/0 = NaN`, `x/0 = ±∞` for `x ≠ 0`, `x/±∞ = 0`,
`±∞/±∞ = NaN`). -/
def div : EF → EF → EF
  | nan, _ => nan
  | _, nan => nan
  | num a, num b =>
    if b = 0 then (if a = 0 then nan else if 0 < a then pinf else ninf)
    else num (a / b)
  | num _, pinf => num 0
  | num _, ninf => num 0
  | pinf, num b => if 0 ≤ b then pinf else ninf
  | ninf, num b => if 0 ≤ b then ninf else pinf
  | pinf, pinf => nan
  | pinf, ninf => nan
  | ninf, pinf => nan
  | ninf, ninf => nan

/-- IEEE `<` (false whenever an operand is NaN). -/
def lt : EF → EF → Bool
  | nan, _ => false
  | _, nan => false
  | num a, num b => a < b
  | num _, pinf => true
  | pinf, num _ => false
  | ninf, num _ => true
  | num _, ninf => false
  | ninf, pinf => true
  | pinf, ninf => false
  | pinf, pinf => false
  | ninf, ninf => false

/-- IEEE `<=` (false whenever an operand is NaN). -/
def le : EF → EF → Bool
  | nan, _ => false
  | _, nan => false
  | num a, num b => a ≤ b
  | num _, pinf => true
  | pinf, num _ => false
  | ninf, num _ => true
  | num _, ninf => false
  | ninf, pinf => true
  | pinf, ninf => false
  | pinf, pinf => true
  | ninf, ninf => true

/-- Rust `f64::min`: if one argument is NaN the other is returned. -/
def fmin (a b : EF) : EF :=
  if a.isNan then b else if b.isNan then a else if le a b then a else b

/-- Rust `f64::partial_cmp`: `None` iff an operand is NaN. -/
def pcmp (a b : EF) : Option Ordering :=
  if a.isNan ∨ b.isNan then none
  else some (if lt a b then .lt else if lt b a then .gt else .eq)

end EF

/-- A `0.0`-initialised `+=` accumulation of a list of `f64` values. -/
def sumEF (l : List EF) : EF := l.foldl EF.add (EF.num 0)

/-- The brightness-score branch chain on an `f64` mean (every comparison is
false on NaN/±∞, so those fall through to the final `0.0`). -/
def brightnessScoreEF (avg : EF) : EF :=
  if EF.lt avg (.num 22) then .num 0
  else if EF.lt avg (.num 56) then
    EF.div (EF.sub avg (.num 22)) (EF.sub (.num 56) (.num 22))
  else if EF.le avg (.num 171) then .num 1
  else if EF.le avg (.num 194) then
    EF.sub (.num 1) (EF.div (EF.sub avg (.num 171)) (EF.sub (.num 194) (.num 171)))
  else .num 0

/-- `total_brightness / pixel_count` in `f64` (NaN when `0/0`). -/
def averageEF (rgb_data : List (Nat × Nat × Nat)) (width height : Nat) : EF :=
  EF.div (sumEF ((rgb_data.map lum).map EF.num)) (.num ((width * height : Nat) : ℚ))

/-- The variance score in `f64`: `(variance / 5000.0).min(1.0)`, where the
squared deviations are taken from the (possibly NaN/infinite) `f64` mean. -/
def varianceScoreEF (rgb_data : List (Nat × Nat × Nat)) (width height : Nat) : EF :=
  let avg := averageEF rgb_data width height
  let variance :=
    EF.div (sumEF ((rgb_data.map lum).map fun v =>
      EF.mul (EF.sub (.num v) avg) (EF.sub (.num v) avg)))
      (.num ((width * height : Nat) : ℚ))
  EF.fmin (EF.div variance (.num 5000)) (.num 1)

/-- The sharpness score in `f64`.  All of its operands are finite luminances
(the mean is not involved), so the Laplacian contributions are the exact
rational ones of `lap_contribs`. -/
def sharpnessScoreEF (rgb_data : List (Nat × Nat × Nat)) (width height : Nat) : EF :=
  let contribs := lap_contribs (rgb_data.map lum) width height
  let laplacian_variance :=
    if 0 < contribs.length then
      EF.div (sumEF ((contribs.map fun v => v * v).map EF.num)) (.num (contribs.length : ℚ))
    else .num 0
  EF.fmin (EF.div laplacian_variance (.num 2000)) (.num 1)

/-- `calculate_frame_quality` in the `f64` model. -/
def calcEF (rgb_data : List (Nat × Nat × Nat)) (width height : Nat) : EF :=
  EF.add
    (EF.add (EF.mul (brightnessScoreEF (averageEF rgb_data width height)) (.num 0.33))
      (EF.mul (varianceScoreEF rgb_data width height) (.num 0.33)))
    (EF.mul (sharpnessScoreEF rgb_data width height) (.num 0.33))

/-- The selector's fold in the `f64` model: each comparison is
`partial_cmp(..).unwrap()`; `none` models the `unwrap` panic. -/
def selectorEF (scores : List EF) : Option Nat :=
  match List.enumFrom 0 scores with
  | [] => none
  | x :: xs =>
    (xs.foldl (fun acc y =>
        acc.bind fun a =>
          (EF.pcmp a.2 y.2).map fun o => match o with | .gt => a | _ => y)
      (some x)).map Prod.fst

/-! ## Helper lemmas -/

theorem flatMap_congr_mem {α β : Type} {l : List α} {f g : α → List β}
    (h : ∀ a ∈ l, f a = g a) : l.flatMap f = l.flatMap g := by
  induction l with
  | nil => rfl
  | cons a t ih =>
    simp only [List.flatMap_cons, h a (List.mem_cons_self a t),
      ih fun a ha => h a (List.mem_cons_of_mem _ ha)]

theorem flatMap_nil_of_mem {α β : Type} {l : List α} {f : α → List β}
    (h : ∀ a ∈ l, f a = []) : l.flatMap f = [] := by
  have : l.flatMap f = l.flatMap fun _ => [] := flatMap_congr_mem h
  simp [this]

theorem filterMap_nil_of_mem {α β : Type} {l : List α} {f : α → Option β}
    (h : ∀ a ∈ l, f a = none) : l.filterMap f = [] := by
  induction l with
  | nil => rfl
  | cons a t ih =>
    rw [List.filterMap_cons, h a (List.mem_cons_self a t)]
    exact ih fun a ha => h a (List.mem_cons_of_mem _ ha)

theorem length_flatMap_const {α β : Type} (L : Nat) {l : List α} {f : α → List β}
    (hf : ∀ a ∈ l, (f a).length = L) : (l.flatMap f).length = l.length * L := by
  induction l with
  | nil => simp
  | cons a t ih =>
    rw [List.flatMap_cons, List.length_append, hf a (List.mem_cons_self a t),
      ih fun a ha => hf a (List.mem_cons_of_mem _ ha), List.length_cons, Nat.succ_mul]
    omega

theorem getD_flatMap_const {α β : Type} (d : β) (a0 : α) (L : Nat) {f : α → List β} :
    ∀ (l : List α) (i j : Nat), (∀ a ∈ l, (f a).length = L) → i < l.length → j < L →
      (l.flatMap f).getD (i * L + j) d = (f (l.getD i a0)).getD j d := by
  intro l
  induction l with
  | nil => intro i j _ hi _; exact absurd hi (by simp)
  | cons a t ih =>
    intro i j hf hi hj
    match i with
    | 0 =>
      rw [List.flatMap_cons, Nat.zero_mul, Nat.zero_add,
        List.getD_append _ _ _ _ (by rw [hf a (List.mem_cons_self a t)]; exact hj)]
      rfl
    | i + 1 =>
      rw [List.flatMap_cons,
        List.getD_append_right _ _ _ _ (by rw [hf a (List.mem_cons_self a t)]; calc
          L ≤ (i + 1) * L := Nat.le_mul_of_pos_left L (Nat.succ_pos i)
          _ ≤ (i + 1) * L + j := Nat.le_add_right _ _),
        hf a (List.mem_cons_self a t)]
      have harith : (i + 1) * L + j - L = i * L + j := by rw [Nat.succ_mul]; omega
      rw [harith, ih i j (fun a ha => hf a (List.mem_cons_of_mem _ ha))
        (Nat.lt_of_succ_lt_succ hi) hj]
      rfl

theorem getD_range {n i : Nat} (d : Nat) (h : i < n) : (List.range n).getD i d = i := by
  rw [List.getD_eq_getElem _ _ (by simpa using h), List.getElem_range]

theorem nat_floor_mul_div (w n d : Nat) : ⌊(w : ℚ) * (n : ℚ) / (d : ℚ)⌋₊ = w * n / d := by
  rw [show (w : ℚ) * (n : ℚ) = ((w * n : Nat) : ℚ) by push_cast; ring,
    Nat.floor_div_nat, Nat.floor_natCast]

/-- C5: output geometry — with a present, non-1:1 PAR the output width is
`width * par_num / par_den` (integer truncation) and the height is the source
height; otherwise the output dimensions equal the source dimensions; in
particular PAR (2,1) with source 640x480 yields 1280x480. -/
theorem c5_output_dims :
    (∀ w h n d : Nat,
      ((n ≠ 0 ∧ d ≠ 0 ∧ ¬(n = 1 ∧ d = 1)) → output_dims w h n d = (w * n / d, h)) ∧
      (¬(n ≠ 0 ∧ d ≠ 0 ∧ ¬(n = 1 ∧ d = 1)) → output_dims w h n d = (w, h))) ∧
    output_dims 640 480 2 1 = (1280, 480) := by
  have key : ∀ w h n d : Nat, (n ≠ 0 ∧ d ≠ 0 ∧ ¬(n = 1 ∧ d = 1)) →
      output_dims w h n d = (w * n / d, h) := by
    intro w h n d hp
    rw [output_dims, if_pos hp, nat_floor_mul_div]
  refine ⟨fun w h n d => ⟨key w h n d, fun hp => by rw [output_dims, if_neg hp]⟩, ?_⟩
  rw [key 640 480 2 1 (by norm_num)]

/-- C5 witness: the PAR branch hypothesis holds at `(2,1)`, `640x480`, and the
theorem evaluates there to `1280x480`. -/
theorem c5_output_dims_witness :
    ((2 ≠ 0 ∧ 1 ≠ 0 ∧ ¬(2 = 1 ∧ 1 = 1)) ∧ output_dims 640 480 2 1 = (640 * 2 / 1, 480)) :=
  ⟨by norm_num, (c5_output_dims.1 640 480 2 1).1 (by norm_num)⟩

theorem brightness_closed (M : ℚ) :
    brightness_score_of M = max 0 (min 1 (min ((M - 22) / 34) ((194 - M) / 23))) := by
  unfold brightness_score_of
  simp only [max_def, min_def]
  split_ifs <;> linarith

theorem brightness_bounds (M : ℚ) :
    0 ≤ brightness_score_of M ∧ brightness_score_of M ≤ 1 := by
  rw [brightness_closed]
  exact ⟨le_max_left _ _, max_le (by norm_num) (min_le_left _ _)⟩

theorem brightness_lipschitz (x y : ℚ) :
    |brightness_score_of x - brightness_score_of y| ≤ |x - y| := by
  rw [brightness_closed x, brightness_closed y]
  have h1 : |max 0 (min 1 (min ((x - 22) / 34) ((194 - x) / 23))) -
      max 0 (min 1 (min ((y - 22) / 34) ((194 - y) / 23)))| ≤
      |min 1 (min ((x - 22) / 34) ((194 - x) / 23)) -
      min 1 (min ((y - 22) / 34) ((194 - y) / 23))| := by
    refine le_trans (abs_max_sub_max_le_max _ _ _ _) ?_
    simp
  have h2 : |min 1 (min ((x - 22) / 34) ((194 - x) / 23)) -
      min 1 (min ((y - 22) / 34) ((194 - y) / 23))| ≤
      |min ((x - 22) / 34) ((194 - x) / 23) - min ((y - 22) / 34) ((194 - y) / 23)| := by
    refine le_trans (abs_min_sub_min_le_max _ _ _ _) ?_
    simp
  have h3 : |min ((x - 22) / 34) ((194 - x) / 23) - min ((y - 22) / 34) ((194 - y) / 23)| ≤
      max |(x - 22) / 34 - (y - 22) / 34| |(194 - x) / 23 - (194 - y) / 23| :=
    abs_min_sub_min_le_max _ _ _ _
  have e1 : |(x - 22) / 34 - (y - 22) / 34| = |x - y| / 34 := by
    rw [show (x - 22) / 34 - (y - 22) / 34 = (x - y) / 34 by ring, abs_div]
    norm_num
  have e2 : |(194 - x) / 23 - (194 - y) / 23| = |x - y| / 23 := by
    rw [show (194 - x) / 23 - (194 - y) / 23 = -((x - y) / 23) by ring, abs_neg, abs_div]
    norm_num
  have h4 : max |(x - 22) / 34 - (y - 22) / 34| |(194 - x) / 23 - (194 - y) / 23| ≤ |x - y| := by
    rw [e1, e2]
    exact max_le (div_le_self (abs_nonneg _) (by norm_num))
      (div_le_self (abs_nonneg _) (by norm_num))
  exact le_trans h1 (le_trans h2 (le_trans h3 h4))

theorem brightness_continuousAt (c : ℚ) : ContinuousAt brightness_score_of c := by
  rw [Metric.continuousAt_iff]
  intro ε hε
  refine ⟨ε, hε, ?_⟩
  intro x hx
  rw [Rat.dist_eq] at hx ⊢
  rw [← Rat.cast_sub, ← Rat.cast_abs] at hx ⊢
  calc ((|brightness_score_of x - brightness_score_of c| : ℚ) : ℝ)
      ≤ ((|x - c| : ℚ) : ℝ) := by exact_mod_cast brightness_lipschitz x c
    _ < ε := hx

/-- C3: the brightness score is exactly the spec's piecewise-linear function
of the mean luminance, lies in [0,1] for every mean, and is continuous at the
four breakpoints 22, 56, 171, 194. -/
theorem c3_brightness :
    (∀ M : ℚ, brightness_score_of M = brightness_spec M ∧
      0 ≤ brightness_score_of M ∧ brightness_score_of M ≤ 1) ∧
    ContinuousAt brightness_score_of 22 ∧ ContinuousAt brightness_score_of 56 ∧
    ContinuousAt brightness_score_of 171 ∧ ContinuousAt brightness_score_of 194 := by
  refine ⟨fun M => ⟨?_, brightness_bounds M⟩, brightness_continuousAt 22,
    brightness_continuousAt 56, brightness_continuousAt 171, brightness_continuousAt 194⟩
  unfold brightness_score_of brightness_spec
  rcases lt_or_le M 22 with h1 | h1
  · simp only [if_pos h1]
  · rcases lt_or_le M 56 with h2 | h2
    · simp only [if_neg (not_lt.mpr h1), if_pos h2,
        if_pos (show 22 ≤ M ∧ M < 56 from ⟨h1, h2⟩)]
      norm_num
    · rcases le_or_lt M 171 with h3 | h3
      · simp only [if_neg (not_lt.mpr (show (22:ℚ) ≤ M by linarith)),
          if_neg (not_lt.mpr h2),
          if_neg (show ¬(22 ≤ M ∧ M < 56) from fun hc => absurd hc.2 (not_lt.mpr h2)),
          if_pos h3, if_pos (show 56 ≤ M ∧ M ≤ 171 from ⟨h2, h3⟩)]
      · rcases le_or_lt M 194 with h4 | h4
        · simp only [if_neg (not_lt.mpr (show (22:ℚ) ≤ M by linarith)),
            if_neg (not_lt.mpr (show (56:ℚ) ≤ M by linarith)),
            if_neg (show ¬(22 ≤ M ∧ M < 56) from fun hc => absurd hc.2 (by linarith)),
            if_neg (not_le.mpr h3),
            if_neg (show ¬(56 ≤ M ∧ M ≤ 171) from fun hc => absurd hc.2 (not_le.mpr h3)),
            if_pos h4, if_pos (show 171 < M ∧ M ≤ 194 from ⟨h3, h4⟩)]
          norm_num
        · simp only [if_neg (not_lt.mpr (show (22:ℚ) ≤ M by linarith)),
            if_neg (not_lt.mpr (show (56:ℚ) ≤ M by linarith)),
            if_neg (show ¬(22 ≤ M ∧ M < 56) from fun hc => absurd hc.2 (by linarith)),
            if_neg (not_le.mpr h3),
            if_neg (show ¬(56 ≤ M ∧ M ≤ 171) from fun hc => absurd hc.2 (not_le.mpr h3)),
            if_neg (not_le.mpr h4),
            if_neg (show ¬(171 < M ∧ M ≤ 194) from fun hc => absurd hc.2 (not_le.mpr h4))]

theorem lum_checker3 : List.map lum checker3 = [255, 0, 255, 0, 255, 0, 255, 0, 255] := by
  simp [checker3, lum]; norm_num

theorem calc_checker3 : calculate_frame_quality checker3 3 3 = 0.99 := by
  have havg : average_brightness_of checker3 3 3 = 425/3 := by
    rw [average_brightness_of, lum_checker3]; norm_num
  have hbs : brightness_score_of (425/3) = 1 := by
    rw [brightness_score_of, if_neg (by norm_num), if_neg (by norm_num), if_pos (by norm_num)]
  have hvar : variance_score_of checker3 3 3 = 1 := by
    rw [variance_score_of, havg, lum_checker3]
    simp only [List.map_cons, List.map_nil, List.sum_cons, List.sum_nil]
    rw [min_eq_right (by norm_num)]
  have hsharp : sharpness_score_of checker3 3 3 = 1 := by
    have hlap : lap_contribs (List.map lum checker3) 3 3 = [1020] := by
      rw [lap_contribs, lum_checker3]
      norm_num [u32sub1, laplacian_at, List.filterMap_cons, List.getElem?_cons_succ,
        List.getElem?_cons_zero, List.getD]
    rw [sharpness_score_of, hlap]
    simp only [List.map_cons, List.map_nil, List.sum_cons, List.sum_nil, List.length_cons,
      List.length_nil]
    rw [if_pos (by norm_num)]
    rw [min_eq_right (by norm_num)]
  rw [calculate_frame_quality, havg, hbs, hvar, hsharp]
  norm_num

theorem variance_score_bounds (rgb : List (Nat × Nat × Nat)) (w h : Nat) :
    0 ≤ variance_score_of rgb w h ∧ variance_score_of rgb w h ≤ 1 := by
  unfold variance_score_of
  constructor
  · refine le_min (div_nonneg (div_nonneg ?_ (Nat.cast_nonneg _)) (by norm_num)) zero_le_one
    refine List.sum_nonneg fun x hx => ?_
    obtain ⟨v, _, rfl⟩ := List.mem_map.mp hx
    exact sq_nonneg _
  · exact min_le_right _ _

theorem sharpness_score_bounds (rgb : List (Nat × Nat × Nat)) (w h : Nat) :
    0 ≤ sharpness_score_of rgb w h ∧ sharpness_score_of rgb w h ≤ 1 := by
  unfold sharpness_score_of
  constructor
  · refine le_min (div_nonneg ?_ (by norm_num)) zero_le_one
    split_ifs with hc
    · refine div_nonneg (List.sum_nonneg fun x hx => ?_) (Nat.cast_nonneg _)
      obtain ⟨v, _, rfl⟩ := List.mem_map.mp hx
      exact mul_self_nonneg _
    · exact le_refl 0
  · exact min_le_right _ _

/-- C4: the composite score is exactly
`0.33*brightness + 0.33*variance + 0.33*sharpness`, each sub-score lies in
[0,1], and the composite lies in [0, 0.99] ⊆ [0, 1]; the maximum 0.99 is
attained (3x3 checkerboard). -/
theorem c4_composite :
    (∀ rgb w h, rgb.length = w * h → 0 < w * h →
      calculate_frame_quality rgb w h =
        0.33 * brightness_score_of (average_brightness_of rgb w h) +
        0.33 * variance_score_of rgb w h + 0.33 * sharpness_score_of rgb w h ∧
      (0 ≤ brightness_score_of (average_brightness_of rgb w h) ∧
        brightness_score_of (average_brightness_of rgb w h) ≤ 1) ∧
      (0 ≤ variance_score_of rgb w h ∧ variance_score_of rgb w h ≤ 1) ∧
      (0 ≤ sharpness_score_of rgb w h ∧ sharpness_score_of rgb w h ≤ 1) ∧
      0 ≤ calculate_frame_quality rgb w h ∧ calculate_frame_quality rgb w h ≤ 0.99) ∧
    calculate_frame_quality checker3 3 3 = 0.99 := by
  refine ⟨fun rgb w h _ _ => ?_, calc_checker3⟩
  obtain ⟨hb0, hb1⟩ := brightness_bounds (average_brightness_of rgb w h)
  obtain ⟨hv0, hv1⟩ := variance_score_bounds rgb w h
  obtain ⟨hs0, hs1⟩ := sharpness_score_bounds rgb w h
  refine ⟨by rw [calculate_frame_quality]; ring, ⟨hb0, hb1⟩, ⟨hv0, hv1⟩, ⟨hs0, hs1⟩, ?_, ?_⟩ <;>
    rw [calculate_frame_quality] <;> nlinarith

/-- C4 witness: a concrete 1x1 mid-gray frame satisfies the hypotheses, and
the theorem yields its composite-score bounds. -/
theorem c4_composite_witness :
    (([(100, 100, 100)] : List (Nat × Nat × Nat)).length = 1 * 1 ∧ 0 < 1 * 1) ∧
    0 ≤ calculate_frame_quality [(100, 100, 100)] 1 1 ∧
    calculate_frame_quality [(100, 100, 100)] 1 1 ≤ 0.99 :=
  ⟨⟨rfl, by decide⟩, (c4_composite.1 [(100, 100, 100)] 1 1 rfl (by decide)).2.2.2.2⟩

theorem lap_contribs_nil {vals : List ℚ} {w h : Nat} (hl : vals.length ≤ w * h)
    (hwh : w ≤ 2 ∨ h ≤ 2) : lap_contribs vals w h = [] := by
  unfold lap_contribs
  rcases Nat.eq_zero_or_pos (w * h) with h0 | hpos
  · have hv : vals.length = 0 := Nat.le_zero.mp (h0 ▸ hl)
    refine flatMap_nil_of_mem fun y _ => filterMap_nil_of_mem fun x _ => if_neg (by omega)
  · have hw : w ≠ 0 := by rintro rfl; omega
    have hh : h ≠ 0 := by rintro rfl; omega
    rcases hwh with hw2 | hh2
    · refine flatMap_nil_of_mem fun y _ => ?_
      rw [show u32sub1 w - 1 = 0 by rw [u32sub1, if_neg hw]; omega]
      rfl
    · rw [show u32sub1 h - 1 = 0 by rw [u32sub1, if_neg hh]; omega]
      rfl

/-- C9: for a frame whose width or height is at most 2 there are no interior
Laplacian contributions, and the sharpness score is `0.0`. -/
theorem c9_sharpness_degenerate (rgb : List (Nat × Nat × Nat)) (w h : Nat)
    (hl : rgb.length ≤ w * h) (hwh : w ≤ 2 ∨ h ≤ 2) :
    sharpness_score_of rgb w h = 0 := by
  unfold sharpness_score_of
  rw [lap_contribs_nil (by simpa using hl) hwh]
  norm_num

/-- C9 witness: a concrete 1x1 frame satisfies the hypotheses and its
sharpness score is `0.0`. -/
theorem c9_sharpness_degenerate_witness :
    (([(5, 5, 5)] : List (Nat × Nat × Nat)).length ≤ 1 * 1 ∧ (1 ≤ 2 ∨ 1 ≤ 2)) ∧
    sharpness_score_of [(5, 5, 5)] 1 1 = 0 :=
  ⟨⟨by decide, Or.inl (by decide)⟩,
    c9_sharpness_degenerate [(5, 5, 5)] 1 1 (by decide) (Or.inl (by decide))⟩

/-- C6: when the scaled frame's buffer covers `height` rows of stride
`linesize ≥ 3*width`, the copy loop emits exactly `width*height*3` bytes,
row-major with no inter-row padding: byte `k` of pixel `(x,y)` lands at
output offset `(y*width + x)*3 + k` and comes from source offset
`y*linesize + x*3 + k`. -/
theorem c6_pixel_copy (data : List Nat) (ls w h : Nat)
    (hstride : 3 * w ≤ ls) (hlen : h * ls ≤ data.length) :
    (extract_pixels data ls w h).length = w * h * 3 ∧
    ∀ x y k, x < w → y < h → k < 3 →
      (extract_pixels data ls w h).getD ((y * w + x) * 3 + k) 0 =
        data.getD (y * ls + x * 3 + k) 0 := by
  have hguard : ∀ y, y < h → ∀ x, x < w → y * ls + x * 3 + 2 < data.length := by
    intro y hy x hx
    have h1 : x * 3 + 2 < ls := by omega
    have h2 : y * ls + (x * 3 + 2) < (y + 1) * ls := by
      rw [Nat.succ_mul]
      exact Nat.add_lt_add_left h1 (y * ls)
    calc y * ls + x * 3 + 2 = y * ls + (x * 3 + 2) := Nat.add_assoc _ _ _
      _ < (y + 1) * ls := h2
      _ ≤ h * ls := Nat.mul_le_mul_right ls (by omega)
      _ ≤ data.length := hlen
  have hEP : extract_pixels data ls w h =
      (List.range h).flatMap fun y => (List.range w).flatMap fun x =>
        [data.getD (y * ls + x * 3) 0, data.getD (y * ls + x * 3 + 1) 0,
          data.getD (y * ls + x * 3 + 2) 0] := by
    unfold extract_pixels
    refine flatMap_congr_mem fun y hy => flatMap_congr_mem fun x hx => ?_
    exact if_pos (hguard y (List.mem_range.mp hy) x (List.mem_range.mp hx))
  have hrowlen : ∀ y ∈ List.range h,
      ((List.range w).flatMap fun x =>
        [data.getD (y * ls + x * 3) 0, data.getD (y * ls + x * 3 + 1) 0,
          data.getD (y * ls + x * 3 + 2) 0]).length = w * 3 := by
    intro y _
    have hf3 : ∀ x ∈ List.range w,
        ([data.getD (y * ls + x * 3) 0, data.getD (y * ls + x * 3 + 1) 0,
          data.getD (y * ls + x * 3 + 2) 0] : List Nat).length = 3 := fun x _ => rfl
    exact (length_flatMap_const 3 hf3).trans (by rw [List.length_range])
  constructor
  · rw [hEP]
    exact (length_flatMap_const (w * 3) hrowlen).trans (by rw [List.length_range]; ring)
  · intro x y k hx hy hk
    have hinner : ∀ x ∈ List.range w,
        ([data.getD (y * ls + x * 3) 0, data.getD (y * ls + x * 3 + 1) 0,
          data.getD (y * ls + x * 3 + 2) 0] : List Nat).length = 3 := fun x _ => rfl
    rw [hEP, show (y * w + x) * 3 + k = y * (w * 3) + (x * 3 + k) by ring,
      getD_flatMap_const 0 0 (w * 3) _ y (x * 3 + k) hrowlen (by simpa using hy) (by omega),
      getD_range 0 hy,
      getD_flatMap_const 0 0 3 _ x k hinner (by simpa using hx) hk,
      getD_range 0 hx]
    interval_cases k
    · rw [Nat.add_zero]; rfl
    · rfl
    · rfl

/-- C6 witness: a 2-row, 1-pixel-wide frame with stride 6 (3 bytes padding per
row); the hypotheses hold and the copy strips the padding. -/
theorem c6_pixel_copy_witness :
    (3 * 1 ≤ 6 ∧ 2 * 6 ≤ ([0, 1, 2, 3, 4, 5, 6, 7, 8, 9, 10, 11] : List Nat).length) ∧
    (extract_pixels [0, 1, 2, 3, 4, 5, 6, 7, 8, 9, 10, 11] 6 1 2).length = 1 * 2 * 3 ∧
    (extract_pixels [0, 1, 2, 3, 4, 5, 6, 7, 8, 9, 10, 11] 6 1 2).getD ((1 * 1 + 0) * 3 + 2) 0 =
      ([0, 1, 2, 3, 4, 5, 6, 7, 8, 9, 10, 11] : List Nat).getD (1 * 6 + 0 * 3 + 2) 0 :=
  ⟨⟨by decide, by decide⟩,
    (c6_pixel_copy [0, 1, 2, 3, 4, 5, 6, 7, 8, 9, 10, 11] 6 1 2 (by decide) (by decide)).1,
    (c6_pixel_copy [0, 1, 2, 3, 4, 5, 6, 7, 8, 9, 10, 11] 6 1 2 (by decide) (by decide)).2
      0 1 2 (by decide) (by decide) (by decide)⟩

theorem placeholder_pixel_eq_spec (x y : Nat) :
    placeholder_pixel x y = placeholder_spec_pixel x y := by
  simp only [placeholder_pixel, placeholder_spec_pixel]
  have h160 : ((320 / 2 : Nat) : ℤ) = 160 := by norm_num
  have h120 : ((240 / 2 : Nat) : ℤ) = 120 := by norm_num
  rw [h160, h120]
  have hdiv : ((x : ℤ) - 160) * 15 / 15 = (x : ℤ) - 160 := by omega
  rw [hdiv]
  simp only [abs_le]
  split_ifs <;> first | rfl | omega

/-- C7: the placeholder generator is pure and deterministic — the pixel
buffer is independent of the input path — and produces exactly the
320x240x3-byte row-major image whose pixels satisfy the spec's geometric
description (background (40,40,40), 2-pixel border (80,80,80), play glyph
(220,220,220) where `|rel_x| ≤ 15 ∧ |rel_y| ≤ max_y(rel_x)`). -/
theorem c7_placeholder :
    (∀ p q : String,
      (generate_placeholder_thumbnail p).1 = (generate_placeholder_thumbnail q).1) ∧
    (∀ p : String, (generate_placeholder_thumbnail p).1.length = 320 * 240 * 3) ∧
    (∀ p : String, (generate_placeholder_thumbnail p).1 =
      (List.range 240).flatMap fun y => (List.range 320).flatMap fun x =>
        [(placeholder_spec_pixel x y).1, (placeholder_spec_pixel x y).2.1,
          (placeholder_spec_pixel x y).2.2]) := by
  refine ⟨fun p q => rfl, fun p => ?_, fun p => ?_⟩
  · have hrow : ∀ y ∈ List.range 240,
        ((List.range 320).flatMap fun x =>
          [(placeholder_pixel x y).1, (placeholder_pixel x y).2.1,
            (placeholder_pixel x y).2.2]).length = 960 := by
      intro y _
      have hf3 : ∀ x ∈ List.range 320,
          ([(placeholder_pixel x y).1, (placeholder_pixel x y).2.1,
            (placeholder_pixel x y).2.2] : List Nat).length = 3 := fun x _ => rfl
      exact (length_flatMap_const 3 hf3).trans (by rw [List.length_range])
    exact (length_flatMap_const 960 hrow).trans (by rw [List.length_range])
  · exact flatMap_congr_mem fun y _ => flatMap_congr_mem fun x _ => by
      rw [placeholder_pixel_eq_spec x y]

theorem decode_run_fed_le : ∀ (ps : List Packet) (c : Nat),
    (decode_run ps c).2 ≤ max_packets - c := by
  intro ps
  induction ps with
  | nil => intro c; simp [decode_run]
  | cons p rest ih =>
    intro c
    rw [decode_run]
    by_cases hv : p.isVideo = false
    · rw [if_pos hv]; exact ih c
    · rw [if_neg hv]
      by_cases hb : max_packets < c + 1
      · rw [if_pos hb]; simp
      · rw [if_neg hb]
        have hc : c + 1 ≤ max_packets := by omega
        have hstep := ih (c + 1)
        by_cases hs : p.sendOk = false
        · rw [if_pos hs]; simp only []; omega
        · rw [if_neg hs]
          by_cases hr : p.recvOk
          · rw [if_pos hr]
            by_cases hsc : p.scaleOk
            · rw [if_pos hsc]; simp only []
              rw [max_packets] at hc ⊢; omega
            · rw [if_neg hsc]; simp only []; omega
          · rw [if_neg hr]; simp only []; omega


theorem find_cons_false (q : Packet) (l : List Packet)
    (hq : (q.sendOk && q.recvOk && q.scaleOk) = false) :
    List.find? (fun p => p.sendOk && p.recvOk && p.scaleOk) (q :: l) =
      List.find? (fun p => p.sendOk && p.recvOk && p.scaleOk) l := by
  simp [List.find?, hq]

theorem find_cons_true (q : Packet) (l : List Packet)
    (hq : (q.sendOk && q.recvOk && q.scaleOk) = true) :
    List.find? (fun p => p.sendOk && p.recvOk && p.scaleOk) (q :: l) = some q := by
  simp [List.find?, hq]

theorem decode_run_find : ∀ (ps : List Packet) (c : Nat), c ≤ max_packets →
    (decode_run ps c).1 =
      (((ps.filter fun p => p.isVideo).take (max_packets - c)).find? fun p =>
        p.sendOk && p.recvOk && p.scaleOk).map fun p => (p.data, p.linesize) := by
  intro ps
  induction ps with
  | nil => intro c _; simp [decode_run]
  | cons p rest ih =>
    intro c hc
    rw [decode_run]
    by_cases hv : p.isVideo = false
    · rw [if_pos hv, List.filter_cons_of_neg (by simp [hv])]
      exact ih c hc
    · have hv' : p.isVideo = true := by revert hv; cases p.isVideo <;> simp
      rw [if_neg hv, List.filter_cons_of_pos (by simp [hv'])]
      by_cases hb : max_packets < c + 1
      · rw [if_pos hb, show max_packets - c = 0 by omega]
        simp
      · rw [if_neg hb, show max_packets - c = (max_packets - (c + 1)) + 1 by omega,
          List.take_succ_cons]
        have hrec := ih (c + 1) (by omega)
        by_cases hs : p.sendOk = false
        · rw [if_pos hs, find_cons_false p _ (by simp [hs])]
          exact hrec
        · rw [if_neg hs]
          have hs' : p.sendOk = true := by revert hs; cases p.sendOk <;> simp
          by_cases hr : p.recvOk = true
          · rw [if_pos hr]
            by_cases hsc : p.scaleOk = true
            · rw [if_pos hsc, find_cons_true p _ (by simp [hs', hr, hsc])]
              rfl
            · have hsc' : p.scaleOk = false := by revert hsc; cases p.scaleOk <;> simp
              rw [if_neg hsc, find_cons_false p _ (by simp [hsc'])]
              exact hrec
          · have hr' : p.recvOk = false := by revert hr; cases p.recvOk <;> simp
            rw [if_neg hr, find_cons_false p _ (by simp [hr'])]
            exact hrec

theorem sample_loop_trace (senv : SamplerEnv) :
    ∀ l : List ℚ, (sample_loop senv l).1 = l := by
  intro l
  induction l with
  | nil => rfl
  | cons r rest ih =>
    rw [sample_loop]
    rcases h : senv.seek r with _ | ps
    · simpa using ih
    · rcases h2 : (decode_run ps 0).1 with _ | payload <;> simp [h2, ih]

theorem sample_loop_frames (senv : SamplerEnv) :
    ∀ l : List ℚ, (sample_loop senv l).2 =
      l.filterMap fun r => (senv.seek r).bind fun ps => (decode_run ps 0).1 := by
  intro l
  induction l with
  | nil => rfl
  | cons r rest ih =>
    rw [sample_loop, List.filterMap_cons]
    rcases h : senv.seek r with _ | ps
    · simpa [h] using ih
    · rcases h2 : (decode_run ps 0).1 with _ | payload <;> simp [h, h2, ih]

/-- C8: the sampler attempts exactly the positions 0%, 25%, 50%, 75% in that
fixed order for every environment; each per-position decode loop feeds at most
20 video-stream packets to the decoder; the first packet (among the first 20
video packets) that decodes and scales successfully provides that position's
frame; and a seek failure or a frameless position is simply skipped — the
collected frames are the `filterMap` of the per-position results over all four
positions. -/
theorem c8_sampler :
    (∀ senv : SamplerEnv, (sample_loop senv seek_positions).1 = [0, 0.25, 0.5, 0.75]) ∧
    (∀ ps : List Packet, (decode_run ps 0).2 ≤ 20) ∧
    (∀ ps : List Packet, (decode_run ps 0).1 =
      (((ps.filter fun p => p.isVideo).take 20).find? fun p =>
        p.sendOk && p.recvOk && p.scaleOk).map fun p => (p.data, p.linesize)) ∧
    (∀ senv : SamplerEnv, (sample_loop senv seek_positions).2 =
      seek_positions.filterMap fun r => (senv.seek r).bind fun ps => (decode_run ps 0).1) := by
  refine ⟨fun senv => sample_loop_trace senv seek_positions, fun ps => ?_, fun ps => ?_,
    fun senv => sample_loop_frames senv seek_positions⟩
  · have h := decode_run_fed_le ps 0
    rw [max_packets] at h
    omega
  · have h := decode_run_find ps 0 (by rw [max_packets]; omega)
    rwa [show max_packets - 0 = 20 from rfl] at h

theorem selector_step_eq (acc y : Nat × ℚ) :
    (match fcmp acc.2 y.2 with | .gt => acc | _ => y) = if y.2 < acc.2 then acc else y := by
  simp only [fcmp]
  split_ifs <;> first | rfl | linarith

theorem selector_fold_spec (xs : List ℚ) : ∀ (n : Nat) (acc r : Nat × ℚ),
    acc.1 + 1 ≤ n →
    r = (List.enumFrom n xs).foldl
      (fun a y => match fcmp a.2 y.2 with | .gt => a | _ => y) acc →
    acc.1 ≤ r.1 ∧ acc.2 ≤ r.2 ∧
    (r = acc ∨ (n ≤ r.1 ∧ r.1 - n < xs.length ∧ xs.getD (r.1 - n) 0 = r.2)) ∧
    (∀ i, i < xs.length → xs.getD i 0 ≤ r.2) ∧
    (∀ i, i < xs.length → xs.getD i 0 = r.2 → n + i ≤ r.1) := by
  induction xs with
  | nil =>
    intro n acc r _ hr
    rw [List.enumFrom, List.foldl_nil] at hr
    subst hr
    exact ⟨le_refl _, le_refl _, Or.inl rfl, fun i hi => absurd hi (by simp),
      fun i hi _ => absurd hi (by simp)⟩
  | cons v rest ih =>
    intro n acc r hacc hr
    rw [List.enumFrom, List.foldl_cons, selector_step_eq] at hr
    by_cases hlt : v < acc.2
    · rw [if_pos hlt] at hr
      obtain ⟨h1, h2, h3, h4, h5⟩ := ih (n + 1) acc r (by omega) hr
      refine ⟨h1, h2, ?_, ?_, ?_⟩
      · rcases h3 with h3 | ⟨ha, hb, hc⟩
        · exact Or.inl h3
        · refine Or.inr ⟨by omega, by simp only [List.length_cons]; omega, ?_⟩
          rw [show r.1 - n = (r.1 - (n + 1)) + 1 by omega, List.getD_cons_succ]
          exact hc
      · intro i hi
        match i with
        | 0 => rw [List.getD_cons_zero]; linarith
        | j + 1 =>
          rw [List.getD_cons_succ]
          exact h4 j (by simp only [List.length_cons] at hi; omega)
      · intro i hi he
        match i with
        | 0 =>
          rw [List.getD_cons_zero] at he
          linarith
        | j + 1 =>
          rw [List.getD_cons_succ] at he
          have := h5 j (by simp only [List.length_cons] at hi; omega) he
          omega
    · rw [if_neg hlt] at hr
      push_neg at hlt
      obtain ⟨h1, h2, h3, h4, h5⟩ := ih (n + 1) (n, v) r (by omega) hr
      refine ⟨by omega, le_trans hlt h2, ?_, ?_, ?_⟩
      · rcases h3 with h3 | ⟨ha, hb, hc⟩
        · refine Or.inr ⟨by rw [h3], ?_, ?_⟩
          · rw [h3]; simp
          · rw [h3]; simp
        · refine Or.inr ⟨by omega, by simp only [List.length_cons]; omega, ?_⟩
          rw [show r.1 - n = (r.1 - (n + 1)) + 1 by omega, List.getD_cons_succ]
          exact hc
      · intro i hi
        match i with
        | 0 => rw [List.getD_cons_zero]; exact h2
        | j + 1 =>
          rw [List.getD_cons_succ]
          exact h4 j (by simp only [List.length_cons] at hi; omega)
      · intro i hi he
        match i with
        | 0 => omega
        | j + 1 =>
          rw [List.getD_cons_succ] at he
          have := h5 j (by simp only [List.length_cons] at hi; omega) he
          omega

/-- C1 counterexample: with four candidates all scoring equal, the selector
picks sample index 3, not sample index 0 — `Iterator::max_by` returns the
LAST of several equally-maximum elements, because `cmp::max_by` yields its
second argument on `Equal`. -/
theorem c1_tie_counterexample : best_frame_index [1, 1, 1, 1] = 3 := by decide

/-- C1 (amended): the selector picks a candidate with the maximum composite
score, and when several candidates have literally equal maximal scores it
selects the one with the LATEST sample index (every tying index is ≤ the
selected one). -/
theorem c1_selector_max_latest_tie (scores : List ℚ) (hne : scores ≠ []) :
    best_frame_index scores < scores.length ∧
    (∀ j, j < scores.length → scores.getD j 0 ≤ scores.getD (best_frame_index scores) 0) ∧
    (∀ j, j < scores.length → scores.getD j 0 = scores.getD (best_frame_index scores) 0 →
      j ≤ best_frame_index scores) := by
  match scores, hne with
  | s :: rest, _ =>
    have hbest : best_frame_index (s :: rest) =
        ((List.enumFrom 1 rest).foldl
          (fun a y => match fcmp a.2 y.2 with | .gt => a | _ => y) (0, s)).1 := rfl
    set r := (List.enumFrom 1 rest).foldl
      (fun a y => match fcmp a.2 y.2 with | .gt => a | _ => y) (0, s) with hrdef
    obtain ⟨h1, h2, h3, h4, h5⟩ := selector_fold_spec rest 1 (0, s) r (by omega) hrdef
    have hgetr : (s :: rest).getD r.1 0 = r.2 := by
      rcases h3 with h3 | ⟨ha, hb, hc⟩
      · rw [h3, List.getD_cons_zero]
      · rw [show r.1 = (r.1 - 1) + 1 by omega, List.getD_cons_succ]
        simpa using hc
    rw [hbest]
    refine ⟨?_, ?_, ?_⟩
    · rcases h3 with h3 | ⟨ha, hb, hc⟩
      · rw [h3]; simp
      · simp only [List.length_cons]; omega
    · intro j hj
      rw [hgetr]
      match j with
      | 0 => rw [List.getD_cons_zero]; exact h2
      | i + 1 =>
        rw [List.getD_cons_succ]
        exact h4 i (by simp only [List.length_cons] at hj; omega)
    · intro j hj he
      rw [hgetr] at he
      match j with
      | 0 => omega
      | i + 1 =>
        rw [List.getD_cons_succ] at he
        have := h5 i (by simp only [List.length_cons] at hj; omega) he
        omega

/-- C1 witness: on the concrete score list `[1, 2, 2]` (nonempty), the
selected index is in range, dominates index 0's score, and the tying index 1
is ≤ the selected index. -/
theorem c1_selector_max_latest_tie_witness :
    (([1, 2, 2] : List ℚ) ≠ []) ∧
    best_frame_index [1, 2, 2] < ([1, 2, 2] : List ℚ).length ∧
    ([1, 2, 2] : List ℚ).getD 0 0 ≤
      ([1, 2, 2] : List ℚ).getD (best_frame_index [1, 2, 2]) 0 ∧
    (([1, 2, 2] : List ℚ).getD 1 0 =
        ([1, 2, 2] : List ℚ).getD (best_frame_index [1, 2, 2]) 0 →
      1 ≤ best_frame_index [1, 2, 2]) :=
  ⟨List.cons_ne_nil _ _,
    (c1_selector_max_latest_tie [1, 2, 2] (List.cons_ne_nil _ _)).1,
    (c1_selector_max_latest_tie [1, 2, 2] (List.cons_ne_nil _ _)).2.1 0 (by norm_num),
    (c1_selector_max_latest_tie [1, 2, 2] (List.cons_ne_nil _ _)).2.2 1 (by norm_num)⟩

/-- C2 counterexample: in a healthy environment where every seek fails, the
call fails with the empty-candidate-set error, yet the caller's metadata map —
empty before the call — now contains the `Dimensions` entry: the failed
extraction call did change the caller-visible metadata. -/
theorem c2_metadata_counterexample :
    (extract_video_thumbnail allSeeksFailEnv emptyMeta).2 =
      Except.error "No frames could be extracted" ∧
    (extract_video_thumbnail allSeeksFailEnv emptyMeta).1 MKey.dimensions =
      some (MVal.dims 640 480) ∧
    emptyMeta MKey.dimensions = none := by
  have hsample : (sample_loop (⟨fun _ => none⟩ : SamplerEnv) seek_positions).2 = [] := by
    rw [sample_loop_frames]
    simp [seek_positions]
  refine ⟨?_, ?_, rfl⟩
  · simp [extract_video_thumbnail, allSeeksFailEnv, hsample]
  · simp [extract_video_thumbnail, allSeeksFailEnv, hsample,
      insert_stream_metadata, minsert, output_dims]

/-- C2 (amended): failures during set-up (ffmpeg init, open, stream lookup,
decoder creation) leave the caller's metadata map unchanged and return a typed
error; but once the stream geometry has been read, the Dimensions / Display
Dimensions / Pixel Aspect Ratio / Duration entries are inserted into the
caller's map, and they stay there even when the call subsequently fails
(scaler failure or empty candidate set). -/
theorem c2_metadata_amended (env : ExtractEnv) (m : Metadata) :
    ((env.initOk = false ∨ env.openOk = false ∨ env.hasVideo = false ∨
        env.decoderOk = false) →
      (extract_video_thumbnail env m).1 = m ∧
      ∃ e, (extract_video_thumbnail env m).2 = Except.error e) ∧
    ((env.initOk = true ∧ env.openOk = true ∧ env.hasVideo = true ∧
        env.decoderOk = true) →
      (extract_video_thumbnail env m).1 = insert_stream_metadata env.info m) := by
  constructor
  · intro h
    rw [extract_video_thumbnail]
    by_cases h1 : env.initOk = false
    · rw [if_pos h1]; exact ⟨rfl, _, rfl⟩
    · rw [if_neg h1]
      by_cases h2 : env.openOk = false
      · rw [if_pos h2]; exact ⟨rfl, _, rfl⟩
      · rw [if_neg h2]
        by_cases h3 : env.hasVideo = false
        · rw [if_pos h3]; exact ⟨rfl, _, rfl⟩
        · rw [if_neg h3]
          by_cases h4 : env.decoderOk = false
          · rw [if_pos h4]; exact ⟨rfl, _, rfl⟩
          · exact absurd h (by tauto)
  · rintro ⟨h1, h2, h3, h4⟩
    simp only [extract_video_thumbnail, h1, h2, h3, h4]
    norm_num
    split_ifs <;> rfl

/-! ## EF lemmas for the NaN-safety claim -/

theorem foldl_add_num_map (l : List ℚ) :
    ∀ a : ℚ, (l.map EF.num).foldl EF.add (EF.num a) = EF.num (a + l.sum) := by
  induction l with
  | nil => intro a; simp
  | cons q t ih =>
    intro a
    rw [List.map_cons, List.foldl_cons, show EF.add (EF.num a) (EF.num q) =
      EF.num (a + q) from rfl, ih (a + q), List.sum_cons]
    rw [add_assoc]

theorem sumEF_map_num (l : List ℚ) : sumEF (l.map EF.num) = EF.num l.sum := by
  rw [sumEF, foldl_add_num_map l 0, zero_add]

theorem foldl_add_pinf (l : List EF) (h : ∀ e ∈ l, e = EF.pinf) :
    l.foldl EF.add EF.pinf = EF.pinf := by
  induction l with
  | nil => rfl
  | cons e t ih =>
    rw [List.foldl_cons, h e (List.mem_cons_self e t)]
    exact ih fun e he => h e (List.mem_cons_of_mem _ he)

theorem sumEF_pinf (l : List EF) (hne : l ≠ []) (h : ∀ e ∈ l, e = EF.pinf) :
    sumEF l = EF.pinf := by
  match l, hne with
  | e :: t, _ =>
    rw [sumEF, List.foldl_cons, h e (List.mem_cons_self e t)]
    exact foldl_add_pinf t fun e he => h e (List.mem_cons_of_mem _ he)

theorem foldl_add_nan (l : List EF) : l.foldl EF.add EF.nan = EF.nan := by
  induction l with
  | nil => rfl
  | cons e t ih =>
    rw [List.foldl_cons, show EF.add EF.nan e = EF.nan by cases e <;> rfl]
    exact ih

theorem sumEF_nan (l : List EF) (hne : l ≠ []) (h : ∀ e ∈ l, e = EF.nan) :
    sumEF l = EF.nan := by
  match l, hne with
  | e :: t, _ =>
    rw [sumEF, List.foldl_cons, h e (List.mem_cons_self e t),
      show EF.add (EF.num 0) EF.nan = EF.nan from rfl]
    exact foldl_add_nan t

theorem lum_nonneg (p : Nat × Nat × Nat) : 0 ≤ lum p := by
  unfold lum
  positivity

theorem lum_sum_nonneg (rgb : List (Nat × Nat × Nat)) : 0 ≤ (rgb.map lum).sum := by
  refine List.sum_nonneg fun x hx => ?_
  obtain ⟨p, _, rfl⟩ := List.mem_map.mp hx
  exact lum_nonneg p

theorem averageEF_eq (rgb : List (Nat × Nat × Nat)) (w h : Nat) :
    averageEF rgb w h =
      if w * h = 0 then
        (if (rgb.map lum).sum = 0 then EF.nan else EF.pinf)
      else EF.num ((rgb.map lum).sum / ((w * h : Nat) : ℚ)) := by
  rw [averageEF, sumEF_map_num]
  by_cases hpc : w * h = 0
  · rw [if_pos hpc, hpc]
    by_cases hS : (rgb.map lum).sum = 0
    · rw [if_pos hS, hS]
      rfl
    · rw [if_neg hS, show EF.div (EF.num (rgb.map lum).sum) (EF.num ((0 : Nat) : ℚ)) =
        if ((0 : Nat) : ℚ) = 0 then
          (if (rgb.map lum).sum = 0 then EF.nan
            else if 0 < (rgb.map lum).sum then EF.pinf else EF.ninf)
        else EF.num ((rgb.map lum).sum / ((0 : Nat) : ℚ)) from rfl]
      rw [if_pos (by norm_num), if_neg hS,
        if_pos (lt_of_le_of_ne (lum_sum_nonneg rgb) (Ne.symm hS))]
  · rw [if_neg hpc, show EF.div (EF.num (rgb.map lum).sum) (EF.num ((w * h : Nat) : ℚ)) =
      if ((w * h : Nat) : ℚ) = 0 then
        (if (rgb.map lum).sum = 0 then EF.nan
          else if 0 < (rgb.map lum).sum then EF.pinf else EF.ninf)
      else EF.num ((rgb.map lum).sum / ((w * h : Nat) : ℚ)) from rfl]
    rw [if_neg (by exact_mod_cast hpc)]

theorem EF.sub_num (a b : ℚ) : EF.sub (EF.num a) (EF.num b) = EF.num (a - b) := by
  rw [EF.sub, EF.neg, show EF.add (EF.num a) (EF.num (-b)) = EF.num (a + -b) from rfl,
    ← sub_eq_add_neg]

theorem EF.div_num_num (a b : ℚ) (hb : b ≠ 0) :
    EF.div (EF.num a) (EF.num b) = EF.num (a / b) := by
  simp [EF.div, hb]

theorem EF.fmin_num (a b : ℚ) : ∃ q, EF.fmin (EF.num a) (EF.num b) = EF.num q := by
  rw [EF.fmin]
  split_ifs
  · exact ⟨b, rfl⟩
  · exact ⟨a, rfl⟩
  · exact ⟨a, rfl⟩
  · exact ⟨b, rfl⟩

theorem brightnessScoreEF_num (avg : EF) : ∃ q, brightnessScoreEF avg = EF.num q := by
  cases avg with
  | num a =>
    rw [brightnessScoreEF]
    split_ifs
    · exact ⟨0, rfl⟩
    · rw [EF.sub_num, EF.sub_num, EF.div_num_num _ _ (by norm_num)]
      exact ⟨_, rfl⟩
    · exact ⟨1, rfl⟩
    · rw [EF.sub_num, EF.sub_num, EF.div_num_num _ _ (by norm_num), EF.sub_num]
      exact ⟨_, rfl⟩
    · exact ⟨0, rfl⟩
  | pinf => exact ⟨0, rfl⟩
  | ninf => exact ⟨0, rfl⟩
  | nan => exact ⟨0, rfl⟩

theorem map_congr_mem {α β : Type} {l : List α} {f g : α → β}
    (h : ∀ a ∈ l, f a = g a) : l.map f = l.map g := by
  induction l with
  | nil => rfl
  | cons a t ih =>
    rw [List.map_cons, List.map_cons, h a (List.mem_cons_self a t),
      ih fun a ha => h a (List.mem_cons_of_mem _ ha)]

theorem varianceScoreEF_num (rgb : List (Nat × Nat × Nat)) (w h : Nat) :
    ∃ q, varianceScoreEF rgb w h = EF.num q := by
  have hvar : varianceScoreEF rgb w h =
      EF.fmin (EF.div (EF.div
        (sumEF ((rgb.map lum).map fun v =>
          EF.mul (EF.sub (EF.num v) (averageEF rgb w h))
            (EF.sub (EF.num v) (averageEF rgb w h))))
        (EF.num ((w * h : Nat) : ℚ))) (EF.num 5000)) (EF.num 1) := rfl
  by_cases hpc : w * h = 0
  · have hcast : ((w * h : Nat) : ℚ) = 0 := by rw [hpc]; norm_num
    by_cases hS : (rgb.map lum).sum = 0
    · have havg : averageEF rgb w h = EF.nan := by rw [averageEF_eq, if_pos hpc, if_pos hS]
      rw [hvar, havg, hcast]
      by_cases hnil : rgb = []
      · subst hnil
        exact ⟨1, rfl⟩
      · have hterms : sumEF ((rgb.map lum).map fun v =>
            EF.mul (EF.sub (EF.num v) EF.nan) (EF.sub (EF.num v) EF.nan)) = EF.nan := by
          refine sumEF_nan _ (fun hmap => hnil (by simpa using hmap)) fun e he => ?_
          obtain ⟨v, _, rfl⟩ := List.mem_map.mp he
          rfl
        rw [hterms]
        exact ⟨1, rfl⟩
    · have havg : averageEF rgb w h = EF.pinf := by rw [averageEF_eq, if_pos hpc, if_neg hS]
      have hnil : rgb ≠ [] := by rintro rfl; simp at hS
      rw [hvar, havg, hcast]
      have hterms : sumEF ((rgb.map lum).map fun v =>
          EF.mul (EF.sub (EF.num v) EF.pinf) (EF.sub (EF.num v) EF.pinf)) = EF.pinf := by
        refine sumEF_pinf _ (fun hmap => hnil (by simpa using hmap)) fun e he => ?_
        obtain ⟨v, _, rfl⟩ := List.mem_map.mp he
        rfl
      rw [hterms]
      exact ⟨1, rfl⟩
  · have havg : averageEF rgb w h =
        EF.num ((rgb.map lum).sum / ((w * h : Nat) : ℚ)) := by
      rw [averageEF_eq, if_neg hpc]
    rw [hvar, havg]
    have hterms : ((rgb.map lum).map fun v =>
        EF.mul (EF.sub (EF.num v) (EF.num ((rgb.map lum).sum / ((w * h : Nat) : ℚ))))
          (EF.sub (EF.num v) (EF.num ((rgb.map lum).sum / ((w * h : Nat) : ℚ))))) =
        ((rgb.map lum).map fun v =>
          (v - (rgb.map lum).sum / ((w * h : Nat) : ℚ)) *
            (v - (rgb.map lum).sum / ((w * h : Nat) : ℚ))).map EF.num := by
      rw [List.map_map, List.map_map, List.map_map]
      refine map_congr_mem fun p _ => ?_
      simp only [Function.comp]
      rw [EF.sub_num]
      rfl
    rw [hterms, sumEF_map_num,
      EF.div_num_num _ _ (by exact_mod_cast hpc),
      EF.div_num_num _ _ (by norm_num)]
    exact EF.fmin_num _ _

theorem sharpnessScoreEF_num (rgb : List (Nat × Nat × Nat)) (w h : Nat) :
    ∃ q, sharpnessScoreEF rgb w h = EF.num q := by
  have hsh : sharpnessScoreEF rgb w h = EF.fmin (EF.div
      (if 0 < (lap_contribs (rgb.map lum) w h).length then
        EF.div (sumEF (((lap_contribs (rgb.map lum) w h).map fun v => v * v).map EF.num))
          (EF.num ((lap_contribs (rgb.map lum) w h).length : ℚ))
      else EF.num 0) (EF.num 2000)) (EF.num 1) := rfl
  rw [hsh]
  by_cases hc : 0 < (lap_contribs (rgb.map lum) w h).length
  · rw [if_pos hc, sumEF_map_num,
      EF.div_num_num _ _ (Nat.cast_ne_zero.mpr (by omega)),
      EF.div_num_num _ _ (by norm_num)]
    exact EF.fmin_num _ _
  · rw [if_neg hc, EF.div_num_num _ _ (by norm_num)]
    exact EF.fmin_num _ _

theorem calcEF_num (rgb : List (Nat × Nat × Nat)) (w h : Nat) :
    ∃ q, calcEF rgb w h = EF.num q := by
  obtain ⟨b, hb⟩ := brightnessScoreEF_num (averageEF rgb w h)
  obtain ⟨v, hv⟩ := varianceScoreEF_num rgb w h
  obtain ⟨s, hs⟩ := sharpnessScoreEF_num rgb w h
  rw [calcEF, hb, hv, hs]
  exact ⟨_, rfl⟩

theorem mem_enumFrom_snd {α : Type} :
    ∀ (l : List α) (n : Nat) (p : Nat × α), p ∈ List.enumFrom n l → p.2 ∈ l := by
  intro l
  induction l with
  | nil => intro n p hp; simp [List.enumFrom] at hp
  | cons x t ih =>
    intro n p hp
    rw [List.enumFrom] at hp
    rcases List.mem_cons.mp hp with h | h
    · rw [h]
      exact List.mem_cons_self x t
    · exact List.mem_cons_of_mem _ (ih (n + 1) p h)

theorem selectorEF_fold : ∀ (l : List (Nat × EF)) (a : Nat × EF),
    a.2.isNan = false → (∀ p ∈ l, p.2.isNan = false) →
    ∃ b : Nat × EF, l.foldl (fun acc y => acc.bind fun a =>
        (EF.pcmp a.2 y.2).map fun o => match o with | .gt => a | _ => y) (some a) = some b ∧
      b.2.isNan = false := by
  intro l
  induction l with
  | nil => intro a ha _; exact ⟨a, rfl, ha⟩
  | cons y t ih =>
    intro a ha hall
    rw [List.foldl_cons]
    have hy : y.2.isNan = false := hall y (List.mem_cons_self y t)
    obtain ⟨o, ho⟩ : ∃ o, EF.pcmp a.2 y.2 = some o :=
      ⟨_, by rw [EF.pcmp, if_neg (by simp [ha, hy])]⟩
    have hred : ((some a).bind fun a =>
        (EF.pcmp a.2 y.2).map fun o => match o with | .gt => a | _ => y) =
        ((EF.pcmp a.2 y.2).map fun o => match o with | .gt => a | _ => y) := rfl
    rw [hred, ho, Option.map_some']
    have hall' : ∀ p ∈ t, p.2.isNan = false := fun p hp => hall p (List.mem_cons_of_mem _ hp)
    cases o with
    | lt => exact ih y hy hall'
    | eq => exact ih y hy hall'
    | gt => exact ih a ha hall'

theorem selectorEF_isSome (scores : List EF) (hne : scores ≠ [])
    (h : ∀ s ∈ scores, s.isNan = false) : (selectorEF scores).isSome = true := by
  match scores, hne with
  | s :: rest, _ =>
    have hsel : selectorEF (s :: rest) = ((List.enumFrom 1 rest).foldl
        (fun acc y => acc.bind fun a =>
          (EF.pcmp a.2 y.2).map fun o => match o with | .gt => a | _ => y)
        (some (0, s))).map Prod.fst := rfl
    rw [hsel]
    obtain ⟨b, hb, _⟩ := selectorEF_fold (List.enumFrom 1 rest) (0, s)
      (h s (List.mem_cons_self s rest))
      (fun p hp => h p.2 (List.mem_cons_of_mem _ (mem_enumFrom_snd rest 1 p hp)))
    rw [hb]
    rfl

/-- C10: in the IEEE model, `calculate_frame_quality` returns a non-NaN
(finite) value for every frame — in particular for a zero-pixel frame, where
the mean is `0/0 = NaN`, the variance sub-score evaluates to `1.0` because
Rust's `f64::min` returns the non-NaN operand — and therefore the selector's
`partial_cmp(..).unwrap()` never panics whenever at least one candidate frame
was decoded. -/
theorem c10_no_nan :
    (∀ rgb w h, (calcEF rgb w h).isNan = false) ∧
    varianceScoreEF [] 0 0 = EF.num 1 ∧
    (∀ frames : List (Nat × Nat × List (Nat × Nat × Nat)), frames ≠ [] →
      (selectorEF (frames.map fun f => calcEF f.2.2 f.1 f.2.1)).isSome = true) := by
  have hnum : ∀ rgb w h, (calcEF rgb w h).isNan = false := by
    intro rgb w h
    obtain ⟨q, hq⟩ := calcEF_num rgb w h
    rw [hq]
    rfl
  refine ⟨hnum, ?_, ?_⟩
  · have hvar : varianceScoreEF [] 0 0 = EF.fmin (EF.div (EF.div (sumEF [])
        (EF.num ((0 * 0 : Nat) : ℚ))) (EF.num 5000)) (EF.num 1) := rfl
    rw [hvar, show sumEF ([] : List EF) = EF.num 0 from rfl,
      show ((0 * 0 : Nat) : ℚ) = 0 by norm_num]
    rfl
  · intro frames hne
    refine selectorEF_isSome _ (fun hmap => hne (by simpa using hmap)) fun s hs => ?_
    obtain ⟨f, _, rfl⟩ := List.mem_map.mp hs
    exact hnum f.2.2 f.1 f.2.1

/-- C10 witness: a concrete singleton candidate list is nonempty and the
selector on its computed score succeeds. -/
theorem c10_no_nan_witness :
    (([(1, 1, [(0, 0, 0)])] : List (Nat × Nat × List (Nat × Nat × Nat))) ≠ []) ∧
    (selectorEF (([(1, 1, [(0, 0, 0)])] : List (Nat × Nat × List (Nat × Nat × Nat))).map
      fun f => calcEF f.2.2 f.1 f.2.1)).isSome = true :=
  ⟨List.cons_ne_nil _ _, c10_no_nan.2.2 _ (List.cons_ne_nil _ _)⟩

/-- C2 witness: with a failing ffmpeg initialisation, the set-up-failure
branch of the amended claim applies: the metadata map is unchanged and a
typed error is returned. -/
theorem c2_metadata_amended_witness :
    (failInitEnv.initOk = false ∨ failInitEnv.openOk = false ∨
      failInitEnv.hasVideo = false ∨ failInitEnv.decoderOk = false) ∧
    ((extract_video_thumbnail failInitEnv emptyMeta).1 = emptyMeta ∧
      ∃ e, (extract_video_thumbnail failInitEnv emptyMeta).2 = Except.error e) :=
  ⟨Or.inl rfl, (c2_metadata_amended failInitEnv emptyMeta).1 (Or.inl rfl)⟩
